import Mathlib

/-!
Verification development for the voice-bot call-session core
(`media_stream.py`, `llm_service.py`, `deepgram_tts.py`, `config.py`).

Python strings are embedded as `List Char`; byte payloads as `List Nat`.
Each definition is a direct translation of the named source function.
-/

namespace VoiceBot

/-! ## String primitives (CPython semantics) -/

/-- Whitespace test matching CPython `str.strip()` for the ASCII range. -/
def pyIsSpace (c : Char) : Bool :=
  c = ' ' || c = '\t' || c = '\n' || c = '\r' || c = '\x0b' || c = '\x0c'

/-- Python `s.strip()`: drop leading and trailing whitespace. -/
def pyStrip (s : List Char) : List Char :=
  ((s.dropWhile pyIsSpace).reverse.dropWhile pyIsSpace).reverse

/-- Python `pat in s` (substring containment). -/
def pyContains (s pat : List Char) : Bool :=
  if pat.isPrefixOf s then true
  else
    match s with
    | [] => false
    | _ :: rest => pyContains rest pat

/-- Scan of Python `str.replace` with an explicit step budget: at each
position, if `pat` matches, emit `rep` and jump past the match, otherwise
emit the character and advance one.  The budget only bounds recursion
depth; `fuel ≥ s.length` never runs out because each step consumes at
least one character of `s` (the marker is non-empty in the source). -/
def pyReplaceAux : Nat → List Char → List Char → List Char → List Char
  | 0, s, _, _ => s
  | fuel + 1, s, pat, rep =>
    match s with
    | [] => []
    | c :: rest =>
      if pat.isPrefixOf (c :: rest) then
        rep ++ pyReplaceAux fuel ((c :: rest).drop pat.length) pat rep
      else
        c :: pyReplaceAux fuel rest pat rep

/-- Python `s.replace(pat, rep)` for a non-empty `pat`: replace each
non-overlapping occurrence, scanning left to right.  (For `pat = []` we
return `s`; the source only ever replaces the non-empty marker.) -/
def pyReplace (s pat rep : List Char) : List Char :=
  if pat = [] then s else pyReplaceAux s.length s pat rep

/-! ## Configuration constants (`config.py`, `media_stream.py`) -/

/-- Settle delay before dispatching a completed turn (`RESPONSE_DELAY_MS`). -/
def RESPONSE_DELAY_MS : Nat := 200

/-- Silence threshold before a keepalive filler fires (`SILENCE_KEEPALIVE_S`), in seconds. -/
def SILENCE_KEEPALIVE_S : Nat := 15

/-- Interval between idle silence frames (`MEDIA_SILENCE_INTERVAL_MS`). -/
def MEDIA_SILENCE_INTERVAL_MS : Nat := 100

/-- Twenty milliseconds of mu-law audio at 8 kHz (`MULAW_FRAME_SIZE`). -/
def MULAW_FRAME_SIZE : Nat := 160

/-- The mu-law silence filler frame (`SILENCE_FRAME = b"\xff" * 160`). -/
def SILENCE_FRAME : List Nat := List.replicate MULAW_FRAME_SIZE 255

/-- The in-band end-of-call marker searched for in LLM replies. -/
def endCallMarker : List Char := "[END_CALL]".data

/-- Fallback reply returned by `get_patient_response` on request failure. -/
def fallbackReply : List Char := "Sorry, could you repeat that?".data

/-- Rotating keepalive filler prompts (`KEEPALIVE_PROMPTS`). -/
def KEEPALIVE_PROMPTS : List (List Char) :=
  ["I\x27m still here.".data,
   "Hello? Are you still there?".data,
   "I\x27m still on the line.".data]

/-! ## Turn Accumulator (`_on_transcript`, `_delayed_respond`)

Modelled from the spec: the `SttEvent` enumeration imported by
`media_stream.py` is not present under `src/`; the spec's transcription
contract delivers either `PartialFinal(text)` (a confirmed fragment, the
source's FINAL / SPEECH_FINAL results) or `TurnBoundary` (the source's
UTTERANCE_END, Deepgram's long-silence signal).  `utteranceEnd` below is
`SttEvent.UTTERANCE_END`; `partialFinal` covers the fragment results. -/

inductive SttEvent where
  | partialFinal : SttEvent
  | utteranceEnd : SttEvent
deriving DecidableEq

/-- State of the turn accumulator: the pending text buffer
(`_accumulated_text`), whether a settle-delay task is scheduled and alive
(`_speak_task` not done and not cancelled, paired with its delay in ms),
and the log of dispatched utterances (each `transcript_logger.add_message
("agent", full_text)` plus response start). -/
structure AccState where
  accumulated : List Char
  pendingTask : Option Nat
  dispatched : List (List Char)
deriving DecidableEq

/-- Initial accumulator state: empty buffer, no task. -/
def accInit : AccState := ⟨[], none, []⟩

/-- Events driving the accumulator: a transcription callback with its text
and event kind, or the settle-delay timer of the scheduled task elapsing
uncancelled (the body of `_delayed_respond` after `asyncio.sleep`). -/
inductive AccEvent where
  | transcript : List Char → SttEvent → AccEvent
  | timerFire : AccEvent
deriving DecidableEq

/-- One `_on_transcript(text, event)` call: non-empty text is appended
space-joined to `_accumulated_text` and cancels any live `_speak_task`;
on UTTERANCE_END with non-empty stripped buffer, any live task is
cancelled and a new `_delayed_respond(RESPONSE_DELAY)` task is created. -/
def onTranscript (s : AccState) (text : List Char) (event : SttEvent) : AccState :=
  let s1 :=
    if text ≠ [] then
      { s with
        accumulated := if s.accumulated = [] then text else s.accumulated ++ ' ' :: text,
        pendingTask := none }
    else s
  if event = SttEvent.utteranceEnd ∧ pyStrip s1.accumulated ≠ [] then
    { s1 with pendingTask := some RESPONSE_DELAY_MS }
  else s1

/-- The body of `_delayed_respond` once the sleep elapses without the task
having been cancelled: strip the buffer; if empty, return; otherwise clear
the buffer and dispatch the utterance.  A cancelled task never runs this
body (`except asyncio.CancelledError: return`), which the step function
models by firing only when `pendingTask` is set. -/
def timerFire (s : AccState) : AccState :=
  match s.pendingTask with
  | none => s
  | some _ =>
    let fullText := pyStrip s.accumulated
    if fullText = [] then { s with pendingTask := none }
    else
      { accumulated := [],
        pendingTask := none,
        dispatched := s.dispatched ++ [fullText] }

/-- One accumulator step. -/
def accStep (s : AccState) (e : AccEvent) : AccState :=
  match e with
  | AccEvent.transcript text ev => onTranscript s text ev
  | AccEvent.timerFire => timerFire s

/-- Run the accumulator over an event sequence from a state. -/
def accRun (s : AccState) (es : List AccEvent) : AccState :=
  es.foldl accStep s

/-- Spec-side definition, following the spec's words for comparison with the
source embedding: the fragments "joined by single spaces". -/
def joinedBySingleSpaces : List (List Char) → List Char
  | [] => []
  | [f] => f
  | f :: rest => f ++ ' ' :: joinedBySingleSpaces rest

/-- A single space prepended to each fragment, concatenated. -/
def spacedConcat (frags : List (List Char)) : List Char :=
  (frags.map (fun f => ' ' :: f)).flatten

/-- The event a `PartialFinal(text)` fragment produces. -/
def fragEvent (f : List Char) : AccEvent :=
  AccEvent.transcript f SttEvent.partialFinal

lemma joinedBySingleSpaces_cons (f : List Char) (frags : List (List Char)) :
    joinedBySingleSpaces (f :: frags) = f ++ spacedConcat frags := by
  induction frags generalizing f with
  | nil => simp [joinedBySingleSpaces, spacedConcat]
  | cons g rest ih =>
    simp only [joinedBySingleSpaces, ih g, spacedConcat, List.map_cons, List.flatten_cons]
    simp

lemma accRun_frags (frags : List (List Char)) :
    ∀ (a : List Char) (p : Option Nat) (d : List (List Char)),
      a ≠ [] → (∀ f ∈ frags, f ≠ []) →
      accRun ⟨a, p, d⟩ (frags.map fragEvent) =
        ⟨a ++ spacedConcat frags, if frags = [] then p else none, d⟩ := by
  induction frags with
  | nil => intro a p d _ _; simp [accRun, spacedConcat]
  | cons f rest ih =>
    intro a p d ha hf
    have hfne : f ≠ [] := hf f (List.mem_cons_self f rest)
    have hrest : ∀ g ∈ rest, g ≠ [] := fun g hg => hf g (List.mem_cons_of_mem f hg)
    simp only [List.map_cons, accRun, List.foldl_cons]
    have hstep : accStep ⟨a, p, d⟩ (fragEvent f) = ⟨a ++ ' ' :: f, none, d⟩ := by
      simp [accStep, fragEvent, onTranscript, hfne, ha]
    rw [hstep]
    have := ih (a ++ ' ' :: f) none d (by simp) hrest
    simp only [accRun] at this
    rw [this]
    simp only [spacedConcat, List.map_cons, List.flatten_cons, List.append_assoc,
      List.cons_append, List.nil_append]
    cases rest <;> simp [spacedConcat]

lemma accRun_append (s : AccState) (es fs : List AccEvent) :
    accRun s (es ++ fs) = accRun (accRun s es) fs := by
  simp [accRun, List.foldl_append]

/-- C3: a sequence of non-empty `PartialFinal` fragments followed by a
`TurnBoundary` whose settle delay then elapses without newer speech
dispatches exactly the fragments joined by single spaces and trimmed, and
leaves the pending accumulation buffer empty. -/
theorem dispatched_text_is_joined_trimmed (frags : List (List Char))
    (hne : frags ≠ []) (hfrag : ∀ f ∈ frags, f ≠ [])
    (hjoin : pyStrip (joinedBySingleSpaces frags) ≠ []) :
    (accRun accInit (frags.map fragEvent ++
        [AccEvent.transcript [] SttEvent.utteranceEnd, AccEvent.timerFire])).dispatched
      = [pyStrip (joinedBySingleSpaces frags)] ∧
    (accRun accInit (frags.map fragEvent ++
        [AccEvent.transcript [] SttEvent.utteranceEnd, AccEvent.timerFire])).accumulated
      = [] := by
  obtain ⟨f, rest, rfl⟩ : ∃ f rest, frags = f :: rest := by
    cases frags with
    | nil => exact absurd rfl hne
    | cons f rest => exact ⟨f, rest, rfl⟩
  have hfne : f ≠ [] := hfrag f (List.mem_cons_self f rest)
  have hrest : ∀ g ∈ rest, g ≠ [] := fun g hg => hfrag g (List.mem_cons_of_mem f hg)
  rw [accRun_append]
  have h1 : accRun accInit ((f :: rest).map fragEvent) =
      ⟨joinedBySingleSpaces (f :: rest), none, []⟩ := by
    simp only [List.map_cons, accRun, List.foldl_cons]
    have hstep : accStep accInit (fragEvent f) = ⟨f, none, []⟩ := by
      simp [accStep, fragEvent, onTranscript, hfne, accInit]
    rw [hstep]
    have := accRun_frags rest f none [] hfne hrest
    simp only [accRun] at this
    rw [this, joinedBySingleSpaces_cons]
    cases rest <;> simp
  rw [h1]
  set j := joinedBySingleSpaces (f :: rest) with hj
  have h2 : accStep ⟨j, none, []⟩ (AccEvent.transcript [] SttEvent.utteranceEnd) =
      ⟨j, some RESPONSE_DELAY_MS, []⟩ := by
    simp [accStep, onTranscript, hjoin]
  have h3 : accStep ⟨j, some RESPONSE_DELAY_MS, []⟩ AccEvent.timerFire =
      ⟨[], none, [pyStrip j]⟩ := by
    simp [accStep, timerFire, hjoin]
  simp [accRun, h2, h3]

/-- C3 witness: the spec's own scenario, fragments "Hi I", "need an",
"appointment" dispatch as "Hi I need an appointment". -/
theorem dispatched_text_is_joined_trimmed_witness :
    (["Hi I".data, "need an".data, "appointment".data] : List (List Char)) ≠ [] ∧
    (accRun accInit (["Hi I".data, "need an".data, "appointment".data].map fragEvent ++
        [AccEvent.transcript [] SttEvent.utteranceEnd, AccEvent.timerFire])).dispatched
      = [pyStrip (joinedBySingleSpaces ["Hi I".data, "need an".data, "appointment".data])] ∧
    pyStrip (joinedBySingleSpaces ["Hi I".data, "need an".data, "appointment".data])
      = "Hi I need an appointment".data := by
  refine ⟨by decide, ?_, by decide⟩
  exact (dispatched_text_is_joined_trimmed
    ["Hi I".data, "need an".data, "appointment".data]
    (by decide) (by decide) (by decide)).1

lemma accStep_pending_cases (s : AccState) (e : AccEvent) :
    (accStep s e).pendingTask = none ∨
    (accStep s e).pendingTask = some RESPONSE_DELAY_MS ∨
    (accStep s e).pendingTask = s.pendingTask := by
  cases e with
  | transcript text ev =>
    simp only [accStep, onTranscript]
    split_ifs <;> simp
  | timerFire =>
    simp only [accStep, timerFire]
    cases hp : s.pendingTask with
    | none => simp [hp]
    | some d => simp only [hp]; split <;> simp

lemma accRun_pending_invariant (es : List AccEvent) :
    (accRun accInit es).pendingTask = none ∨
    (accRun accInit es).pendingTask = some RESPONSE_DELAY_MS := by
  suffices h : ∀ (s : AccState), s.pendingTask = none ∨ s.pendingTask = some RESPONSE_DELAY_MS →
      (accRun s es).pendingTask = none ∨ (accRun s es).pendingTask = some RESPONSE_DELAY_MS by
    exact h accInit (Or.inl rfl)
  induction es with
  | nil => intro s hs; simpa [accRun] using hs
  | cons e rest ih =>
    intro s hs
    simp only [accRun, List.foldl_cons]
    apply ih
    rcases accStep_pending_cases s e with h | h | h
    · exact Or.inl h
    · exact Or.inr h
    · rw [h]; exact hs

/-- C2: a turn dispatch is scheduled only when `TurnBoundary`
(UTTERANCE_END) arrives while the stripped accumulated text is non-empty,
with the fixed settle delay `RESPONSE_DELAY_MS`; a non-empty `PartialFinal`
fragment never dispatches and cancels any scheduled settle-delay task, so a
superseded task fires nothing; a dispatch only ever happens when a
scheduled task's settle delay elapses, appending the stripped accumulated
text. -/
theorem turn_dispatch_policy :
    (∀ (s : AccState) (text : List Char), text ≠ [] →
      (accStep s (AccEvent.transcript text SttEvent.partialFinal)).dispatched = s.dispatched ∧
      (accStep s (AccEvent.transcript text SttEvent.partialFinal)).pendingTask = none) ∧
    (∀ (s : AccState) (text : List Char),
      (accStep s (AccEvent.transcript text SttEvent.utteranceEnd)).pendingTask =
        if pyStrip (accStep s (AccEvent.transcript text SttEvent.utteranceEnd)).accumulated = []
        then (if text = [] then s.pendingTask else none)
        else some RESPONSE_DELAY_MS) ∧
    (∀ (s : AccState), s.pendingTask = none → accStep s AccEvent.timerFire = s) ∧
    (∀ (s : AccState) (e : AccEvent), (accStep s e).dispatched ≠ s.dispatched →
      e = AccEvent.timerFire ∧ s.pendingTask ≠ none ∧
      (accStep s e).dispatched = s.dispatched ++ [pyStrip s.accumulated]) ∧
    (∀ (es : List AccEvent), (accRun accInit es).pendingTask = none ∨
      (accRun accInit es).pendingTask = some RESPONSE_DELAY_MS) := by
  refine ⟨?_, ?_, ?_, ?_, accRun_pending_invariant⟩
  · intro s text htext
    constructor <;> simp [accStep, onTranscript, htext]
  · intro s text
    by_cases htext : text = []
    · simp only [accStep, onTranscript, htext]
      simp only [ne_eq, not_true_eq_false, if_neg, ite_false]
      by_cases hstrip : pyStrip s.accumulated = [] <;> simp [hstrip]
    · simp only [accStep, onTranscript]
      simp only [ne_eq, htext, not_false_eq_true, if_pos, if_true]
      by_cases hstrip :
          pyStrip (if s.accumulated = [] then text else s.accumulated ++ ' ' :: text) = [] <;>
        simp [hstrip, htext]
  · intro s hs
    simp [accStep, timerFire, hs]
  · intro s e hd
    cases e with
    | transcript text ev =>
      exfalso
      apply hd
      simp only [accStep, onTranscript]
      split_ifs <;> simp
    | timerFire =>
      refine ⟨rfl, ?_, ?_⟩ <;>
      · simp only [accStep, timerFire] at hd ⊢
        cases hp : s.pendingTask with
        | none => simp [hp] at hd
        | some d =>
          simp only [hp] at hd ⊢
          by_cases hstrip : pyStrip s.accumulated = [] <;> simp [hstrip] at hd ⊢

/-- C2 witness: concrete instances — a fragment "wait" on a state with a
scheduled task cancels it without dispatching; an UTTERANCE_END on
non-empty text schedules the settle delay; a timer fire on an unscheduled
state is a no-op; a scheduled timer fire dispatches the stripped text. -/
theorem turn_dispatch_policy_witness :
    ((accStep ⟨"hi".data, some RESPONSE_DELAY_MS, []⟩
        (AccEvent.transcript "wait".data SttEvent.partialFinal)).dispatched = [] ∧
     (accStep ⟨"hi".data, some RESPONSE_DELAY_MS, []⟩
        (AccEvent.transcript "wait".data SttEvent.partialFinal)).pendingTask = none) ∧
    (accStep ⟨"hi".data, none, []⟩
        (AccEvent.transcript [] SttEvent.utteranceEnd)).pendingTask =
      some RESPONSE_DELAY_MS ∧
    accStep ⟨"hi".data, none, []⟩ AccEvent.timerFire = ⟨"hi".data, none, []⟩ ∧
    (accStep ⟨"hi".data, some RESPONSE_DELAY_MS, []⟩ AccEvent.timerFire).dispatched =
      [] ++ [pyStrip "hi".data] := by
  refine ⟨turn_dispatch_policy.1 _ _ (by decide), ?_, ?_, ?_⟩
  · have h := turn_dispatch_policy.2.1 ⟨"hi".data, none, []⟩ []
    rw [h]
    decide
  · exact turn_dispatch_policy.2.2.1 _ rfl
  · exact (turn_dispatch_policy.2.2.2.1 ⟨"hi".data, some RESPONSE_DELAY_MS, []⟩
      AccEvent.timerFire (by decide)).2.2

/-! ## Text generation (`llm_service.get_patient_response`) -/

/-- Embedding of `get_patient_response`.  The underlying chat-completion
request either fails (any raised exception, `Except.error`) or returns a
message whose `content` may be missing (`Option`).  On failure the
exception is caught and the fixed fallback is returned; otherwise the
content (`or ""`) is stripped of surrounding whitespace. -/
def getPatientResponse (request : Except Unit (Option (List Char))) : List Char :=
  match request with
  | Except.error _ => fallbackReply
  | Except.ok content => pyStrip (content.getD [])

/-! ## Response pipeline (`_do_generate_and_speak`) -/

/-- Slicing loop of the TTS repacker, with a step budget that only bounds
recursion depth: each step consumes at least one byte, so a budget of the
chunk's length never runs out. -/
def splitFramesAux : Nat → List Nat → List (List Nat)
  | 0, _ => []
  | fuel + 1, chunk =>
    if chunk = [] then []
    else chunk.take MULAW_FRAME_SIZE :: splitFramesAux fuel (chunk.drop MULAW_FRAME_SIZE)

/-- Repacking of one TTS byte chunk into 20 ms frames:
`for i in range(0, len(chunk), MULAW_FRAME_SIZE): frame = chunk[i:i+MULAW_FRAME_SIZE]`.
The last frame may be shorter than `MULAW_FRAME_SIZE`. -/
def splitFrames (chunk : List Nat) : List (List Nat) :=
  splitFramesAux chunk.length chunk

/-- Observable outcome of one `_do_generate_and_speak` run:
what was streamed to TTS, what was appended to the transcript and the
conversation history, the frames put on the playback queue (in order),
whether the end-of-utterance sentinel was put, whether the hangup path ran
(with its grace period in ms), whether a TTS failure was caught by the
`except` clause, and whether any exception escaped the method. -/
structure GenOutcome where
  spoken : Option (List Char)
  transcriptAdds : List (List Char)
  historyAdds : List (List Char)
  enqueued : List (List Nat)
  sentinelPut : Bool
  hangupAfterMs : Option Nat
  caughtError : Bool
  raisedOut : Bool
deriving DecidableEq

/-- Embedding of `_do_generate_and_speak` after the LLM reply `response`
has been obtained (`get_patient_response` itself never raises).  The TTS
stream is modelled by the chunks it yields (`ttsChunks`) and whether it
then raises (`ttsFails`); frames of chunks yielded before a failure have
already been put on the queue when the exception reaches the `except`
handler, which logs and returns (so nothing propagates, but neither the
sentinel nor the `[END_CALL]` hangup runs).  The initial `_clear_audio`
flush and the `_barge_in` check are part of the interleaved model below;
here `_barge_in` is clear throughout, as set by `self._barge_in.clear()`. -/
def doGenerateAndSpeak (response : List Char) (ttsChunks : List (List Nat))
    (ttsFails : Bool) : GenOutcome :=
  let endCall := pyContains response endCallMarker
  let clean := pyStrip (pyReplace response endCallMarker [])
  if clean = [] then
    ⟨none, [], [], [], false,
      if endCall then some 2000 else none, false, false⟩
  else
    let frames := (ttsChunks.map splitFrames).flatten
    if ttsFails then
      ⟨some clean, [clean], [clean], frames, false, none, true, false⟩
    else
      ⟨some clean, [clean], [clean], frames, true,
        if endCall then some 2000 else none, false, false⟩

/-- C10: `get_patient_response` never propagates an exception — on any
request failure it returns the fixed fallback string, which the response
pipeline then speaks and transcribes like any ordinary reply; on success
it returns the message content stripped of surrounding whitespace. -/
theorem get_patient_response_never_raises
    (request : Except Unit (Option (List Char))) (chunks : List (List Nat)) :
    (∀ e, request = Except.error e → getPatientResponse request = fallbackReply) ∧
    (∀ c, request = Except.ok c → getPatientResponse request = pyStrip (c.getD [])) ∧
    (request = Except.error () →
      (doGenerateAndSpeak (getPatientResponse request) chunks false).spoken
          = some fallbackReply ∧
      (doGenerateAndSpeak (getPatientResponse request) chunks false).transcriptAdds
          = [fallbackReply]) := by
  refine ⟨?_, ?_, ?_⟩
  · intro e he; rw [he]; rfl
  · intro c hc; rw [hc]; rfl
  · intro he
    rw [he]
    constructor <;>
      simp [getPatientResponse, doGenerateAndSpeak, fallbackReply, pyStrip, pyReplace,
        pyContains, endCallMarker, pyReplaceAux, pyIsSpace, List.isPrefixOf]

/-- C10 witness: a failed request yields the fallback, a successful one the
stripped content. -/
theorem get_patient_response_never_raises_witness :
    getPatientResponse (Except.error ()) = fallbackReply ∧
    getPatientResponse (Except.ok (some "  Hello there. ".data))
      = pyStrip "  Hello there. ".data ∧
    (doGenerateAndSpeak (getPatientResponse (Except.error ())) [[1, 2, 3]] false).spoken
      = some fallbackReply := by
  refine ⟨?_, ?_, ?_⟩
  · exact (get_patient_response_never_raises (Except.error ()) []).1 () rfl
  · exact (get_patient_response_never_raises
      (Except.ok (some "  Hello there. ".data)) []).2.1 _ rfl
  · exact ((get_patient_response_never_raises (Except.error ()) [[1, 2, 3]]).2.2 rfl).1

/-- C4 counterexample: the reply `"[END_[END_CALL]CALL]"` contains the end
marker, yet after the single replacement pass the spoken text and the
transcript entry still contain (indeed equal) the marker — removal of the
inner occurrence concatenates the remains into a fresh occurrence. -/
theorem endcall_marker_can_survive_strip :
    pyContains "[END_[END_CALL]CALL]".data endCallMarker = true ∧
    (doGenerateAndSpeak "[END_[END_CALL]CALL]".data [] false).spoken
      = some "[END_CALL]".data ∧
    (doGenerateAndSpeak "[END_[END_CALL]CALL]".data [] false).transcriptAdds
      = ["[END_CALL]".data] ∧
    pyContains "[END_CALL]".data endCallMarker = true := by decide

/-- C4 (amended): the spoken text is the reply after one left-to-right
non-overlapping replacement pass for the marker, stripped; whenever the
marker was present in the reply, call termination is scheduled after the
fixed 2000 ms grace period once the reply (if any) has been streamed; and
for every reply for which that single pass leaves no marker occurrence,
the marker appears in neither the spoken text nor the transcript. -/
theorem endcall_strip_and_hangup (response : List Char) (chunks : List (List Nat)) :
    (∀ sp, (doGenerateAndSpeak response chunks false).spoken = some sp →
      sp = pyStrip (pyReplace response endCallMarker [])) ∧
    (pyContains response endCallMarker = true →
      (doGenerateAndSpeak response chunks false).hangupAfterMs = some 2000) ∧
    (pyContains (pyStrip (pyReplace response endCallMarker [])) endCallMarker = false →
      (∀ sp, (doGenerateAndSpeak response chunks false).spoken = some sp →
        pyContains sp endCallMarker = false) ∧
      (∀ t ∈ (doGenerateAndSpeak response chunks false).transcriptAdds,
        pyContains t endCallMarker = false)) := by
  simp only [doGenerateAndSpeak]
  by_cases hclean : pyStrip (pyReplace response endCallMarker []) = [] <;>
    by_cases hend : pyContains response endCallMarker = true <;>
      simp [hclean, hend]

/-- C4 witness: an ordinary end-marker reply is stripped cleanly, the
transcript entry is marker-free, and hangup is scheduled after the 2000 ms
grace period. -/
theorem endcall_strip_and_hangup_witness :
    (doGenerateAndSpeak "Okay, goodbye. [END_CALL]".data [[1, 2, 3]] false).hangupAfterMs
      = some 2000 ∧
    (∀ t ∈ (doGenerateAndSpeak "Okay, goodbye. [END_CALL]".data
        [[1, 2, 3]] false).transcriptAdds,
      pyContains t endCallMarker = false) := by
  exact ⟨(endcall_strip_and_hangup "Okay, goodbye. [END_CALL]".data [[1, 2, 3]]).2.1
      (by decide),
    ((endcall_strip_and_hangup "Okay, goodbye. [END_CALL]".data [[1, 2, 3]]).2.2
      (by decide)).2⟩

/-- C5 counterexample: a speech-synthesis failure after the first chunk is
caught (nothing propagates, no sentinel), but the frames of that chunk are
already on the playback queue — the turn does not end "without enqueuing
partial audio frames". -/
theorem tts_failure_leaves_partial_frames :
    (doGenerateAndSpeak "Hello there.".data [[1, 2, 3]] true).caughtError = true ∧
    (doGenerateAndSpeak "Hello there.".data [[1, 2, 3]] true).raisedOut = false ∧
    (doGenerateAndSpeak "Hello there.".data [[1, 2, 3]] true).enqueued = [[1, 2, 3]] ∧
    (doGenerateAndSpeak "Hello there.".data [[1, 2, 3]] true).enqueued ≠ [] := by decide

/-- C5 (amended): a speech-synthesis failure is caught and never escapes
the turn's task (so the session keeps running and the next utterance is
handled by the unchanged accumulator); on failure no sentinel is put and
the hangup path never runs, and a failure before the first chunk enqueues
nothing — but the frames of chunks yielded before the failure remain
enqueued.  A text-generation request failure never even reaches this
handler: `get_patient_response` catches it and substitutes the fallback
reply, which is spoken normally. -/
theorem generation_failure_contained (response : List Char)
    (chunks : List (List Nat)) (fails : Bool) :
    (doGenerateAndSpeak response chunks fails).raisedOut = false ∧
    (fails = true → pyStrip (pyReplace response endCallMarker []) ≠ [] →
      (doGenerateAndSpeak response chunks fails).sentinelPut = false ∧
      (doGenerateAndSpeak response chunks fails).hangupAfterMs = none ∧
      (doGenerateAndSpeak response chunks fails).caughtError = true ∧
      (doGenerateAndSpeak response chunks fails).enqueued
        = (chunks.map splitFrames).flatten) ∧
    (fails = true → chunks = [] →
      (doGenerateAndSpeak response chunks fails).enqueued = []) ∧
    (∀ e, getPatientResponse (Except.error e) = fallbackReply) := by
  simp only [doGenerateAndSpeak]
  by_cases hclean : pyStrip (pyReplace response endCallMarker []) = [] <;>
    cases fails <;> simp [hclean, getPatientResponse]
  rintro rfl
  simp

/-- C5 witness: a failure before any chunk arrives enqueues nothing and
does not crash. -/
theorem generation_failure_contained_witness :
    (doGenerateAndSpeak "Hi.".data [] true).raisedOut = false ∧
    (doGenerateAndSpeak "Hi.".data [] true).enqueued = [] ∧
    (doGenerateAndSpeak "Hi.".data [] true).sentinelPut = false := by
  refine ⟨(generation_failure_contained "Hi.".data [] true).1, ?_, ?_⟩
  · exact (generation_failure_contained "Hi.".data [] true).2.2.1 rfl rfl
  · exact ((generation_failure_contained "Hi.".data [] true).2.1 rfl (by decide)).1

/-! ## Silence keepalive (`_silence_keepalive`) -/

/-- State read and written by one poll of the keepalive loop:
`_last_activity` (monotonic seconds), `_keepalive_index`, `_is_speaking`,
and the log of filler prompts driven through the synthesis-and-enqueue
path. -/
structure KeepaliveState where
  lastActivity : Nat
  keepaliveIndex : Nat
  isSpeaking : Bool
  fired : List (List Char)
deriving DecidableEq

/-- One poll of `_silence_keepalive` at monotonic time `now` (the loop
sleeps 3 s between polls): if the elapsed time since `_last_activity`
reaches `SILENCE_KEEPALIVE_S` and nothing is playing, the next prompt of
the rotating set is selected (`KEEPALIVE_PROMPTS[index % len]`), the index
advances, the activity timestamp resets to `now`, `_is_speaking` is set,
and the prompt is synthesized and enqueued; otherwise nothing happens. -/
def keepaliveTick (s : KeepaliveState) (now : Nat) : KeepaliveState :=
  if SILENCE_KEEPALIVE_S ≤ now - s.lastActivity ∧ s.isSpeaking = false then
    ⟨now, s.keepaliveIndex + 1, true,
      s.fired ++ [KEEPALIVE_PROMPTS.getD (s.keepaliveIndex % KEEPALIVE_PROMPTS.length) []]⟩
  else s

/-- C9: when the silence threshold has elapsed and no playback is active, a
poll fires exactly one filler — the next in round-robin order — and resets
the activity timestamp; when it has not elapsed (or playback is active)
nothing fires; and after a fire at time `t`, polls at any times before
`t + SILENCE_KEEPALIVE_S` fire nothing further, even once playback of the
filler has ended. -/
theorem keepalive_fires_once_per_window :
    (∀ (s : KeepaliveState) (now : Nat),
      SILENCE_KEEPALIVE_S ≤ now - s.lastActivity → s.isSpeaking = false →
      keepaliveTick s now =
        ⟨now, s.keepaliveIndex + 1, true,
          s.fired ++ [KEEPALIVE_PROMPTS.getD (s.keepaliveIndex % KEEPALIVE_PROMPTS.length) []]⟩) ∧
    (∀ (s : KeepaliveState) (now : Nat),
      now - s.lastActivity < SILENCE_KEEPALIVE_S ∨ s.isSpeaking = true →
      keepaliveTick s now = s) ∧
    (∀ (t idx : Nat) (f : List (List Char)) (times : List Nat),
      (∀ u ∈ times, u < t + SILENCE_KEEPALIVE_S) →
      times.foldl keepaliveTick ⟨t, idx, false, f⟩ = ⟨t, idx, false, f⟩) := by
  refine ⟨?_, ?_, ?_⟩
  · intro s now h1 h2
    simp [keepaliveTick, h1, h2]
  · intro s now h
    rcases h with h | h
    · simp [keepaliveTick, Nat.not_le.mpr h]
    · simp [keepaliveTick, h]
  · intro t idx f times htimes
    induction times with
    | nil => rfl
    | cons u rest ih =>
      have hu : u < t + SILENCE_KEEPALIVE_S := htimes u (List.mem_cons_self u rest)
      have hstep : keepaliveTick ⟨t, idx, false, f⟩ u = ⟨t, idx, false, f⟩ := by
        have hpos : 0 < SILENCE_KEEPALIVE_S := by decide
        have : u - t < SILENCE_KEEPALIVE_S := by omega
        simp [keepaliveTick, Nat.not_le.mpr this]
      simp only [List.foldl_cons, hstep]
      exact ih (fun v hv => htimes v (List.mem_cons_of_mem u hv))

/-- C9 witness: from an idle state at activity time 0, a poll at 15 s fires
the first prompt and resets the timestamp; polls at 16, 18 and 29 s then
fire nothing; a second fire at 30 s selects the next prompt in rotation. -/
theorem keepalive_fires_once_per_window_witness :
    keepaliveTick ⟨0, 0, false, []⟩ 15 =
      ⟨15, 1, true, [KEEPALIVE_PROMPTS.getD 0 []]⟩ ∧
    [16, 18, 29].foldl keepaliveTick ⟨15, 1, false, [KEEPALIVE_PROMPTS.getD 0 []]⟩ =
      ⟨15, 1, false, [KEEPALIVE_PROMPTS.getD 0 []]⟩ ∧
    keepaliveTick ⟨15, 1, false, [KEEPALIVE_PROMPTS.getD 0 []]⟩ 30 =
      ⟨30, 2, true, [KEEPALIVE_PROMPTS.getD 0 [], KEEPALIVE_PROMPTS.getD 1 []]⟩ := by
  refine ⟨?_, ?_, ?_⟩
  · exact keepalive_fires_once_per_window.1 ⟨0, 0, false, []⟩ 15 (by decide) rfl
  · exact keepalive_fires_once_per_window.2.2 15 1 [KEEPALIVE_PROMPTS.getD 0 []]
      [16, 18, 29] (by decide)
  · have h := keepalive_fires_once_per_window.1
      ⟨15, 1, false, [KEEPALIVE_PROMPTS.getD 0 []]⟩ 30 (by decide) rfl
    rw [h]
    decide

/-! ## Frame pacer (`_audio_sender`, `_send_frame`)

A timed model in integer milliseconds.  One `pacerStep` is one iteration
of the `while` loop: `asyncio.wait_for(self._audio_queue.get(), timeout)`
either returns an item already queued, or an item arriving strictly inside
the timeout window, or times out (an arrival exactly at the deadline can
lose the race against the timeout callback — the model resolves that tie
as a timeout, one legal asyncio scheduling).  On timeout a silence frame
is sent and the loop continues with no sleep; a `None` sentinel clears
`_is_speaking`; a frame is sent and followed by `asyncio.sleep(0.02)`.
`_send_frame` returns without sending when `stream_sid` is unset and
swallows any send exception (`except Exception: logger.warning`), counted
in `sendFailures`. -/

/-- Items of `_audio_queue`: a frame payload or the `None` sentinel. -/
inductive QItem where
  | qframe : List Nat → QItem
  | sentinel : QItem
deriving DecidableEq

/-- Outbound send attempts: a queue frame or the silence filler. -/
inductive SendEvent where
  | sframe : List Nat → SendEvent
  | silence : SendEvent
deriving DecidableEq

/-- Whether a send attempt is a queue frame (not a silence filler). -/
def isFrameSend : SendEvent → Bool
  | SendEvent.sframe _ => true
  | SendEvent.silence => false

/-- Effective wait timeout, `max(0.05, SILENCE_INTERVAL)`, in ms. -/
def silenceIntervalMs : Nat := max 50 MEDIA_SILENCE_INTERVAL_MS

/-- The post-frame sleep `asyncio.sleep(0.02)`, in ms. -/
def frameSleepMs : Nat := 20

/-- Pacer state: the monotonic clock, items already in the queue, future
enqueues (time-stamped), `_is_speaking`, the log of send attempts with
their times, the count of swallowed send failures, `_stop`, and whether
`stream_sid` is set. -/
structure PacerState where
  now : Nat
  pending : List QItem
  arrivals : List (Nat × QItem)
  isSpeaking : Bool
  sends : List (Nat × SendEvent)
  sendFailures : Nat
  stopFlag : Bool
  streamSid : Bool
deriving DecidableEq

/-- Arrivals not later than `now` have already been enqueued when the
pacer calls `get`: move them into the pending queue in order, stopping at
the first strictly-future arrival. -/
def absorbAux : List (Nat × QItem) → Nat → List QItem → List QItem × List (Nat × QItem)
  | [], _, pend => (pend, [])
  | (t, it) :: rest, now, pend =>
    if t ≤ now then absorbAux rest now (pend ++ [it]) else (pend, (t, it) :: rest)

/-- Processing of an item obtained from the queue at time `t`: a `None`
sentinel only clears `_is_speaking`; a frame is sent via `_send_frame`
(attempted only when `stream_sid` is set; a raised send error is swallowed)
and followed by the 20 ms sleep. -/
def pacerHandle (fail : Bool) (s : PacerState) (t : Nat) : QItem → PacerState
  | QItem.qframe f =>
    { s with
        now := t + frameSleepMs,
        sends := s.sends ++ (if s.streamSid then [(t, SendEvent.sframe f)] else []),
        sendFailures := s.sendFailures + (if fail && s.streamSid then 1 else 0) }
  | QItem.sentinel => { s with now := t, isSpeaking := false }

/-- The `asyncio.TimeoutError` branch: send one silence filler frame (when
`stream_sid` is set) and `continue` — no sleep follows. -/
def pacerTimeout (fail : Bool) (s : PacerState) (arr : List (Nat × QItem)) : PacerState :=
  let t := s.now + silenceIntervalMs
  { s with
      now := t, pending := [], arrivals := arr,
      sends := s.sends ++ (if s.streamSid then [(t, SendEvent.silence)] else []),
      sendFailures := s.sendFailures + (if fail && s.streamSid then 1 else 0) }

/-- One iteration of the `_audio_sender` loop.  `fail` says whether a send
attempted during this iteration raises (the outcome is logged and
swallowed either way). -/
def pacerStep (fail : Bool) (s : PacerState) : PacerState :=
  if s.stopFlag then s
  else
    match absorbAux s.arrivals s.now s.pending with
    | (it :: restPend, arr) =>
      pacerHandle fail { s with pending := restPend, arrivals := arr } s.now it
    | ([], arr) =>
      match arr with
      | (t, it) :: restArr =>
        if t < s.now + silenceIntervalMs then
          pacerHandle fail { s with pending := [], arrivals := restArr } t it
        else pacerTimeout fail s arr
      | [] => pacerTimeout fail s []

/-- Iterate the pacer, one send-failure flag per iteration. -/
def pacerRun (fails : List Bool) (s : PacerState) : PacerState :=
  fails.foldl (fun st f => pacerStep f st) s

/-- Spec-side definition, following the spec's words: every send is at
least `gap` ms after the previous send, whatever kind either send is. -/
def allSendsSpaced (gap : Nat) : List (Nat × SendEvent) → Bool
  | (t1, _) :: (t2, e2) :: rest =>
    decide (t1 + gap ≤ t2) && allSendsSpaced gap ((t2, e2) :: rest)
  | _ => true

/-- What the source guarantees: every send that follows a queue-frame send
is at least the nominal frame duration after it (the post-frame sleep);
sends following a silence filler are unconstrained. -/
def spacedAfterFrames : List (Nat × SendEvent) → Bool
  | (t1, e1) :: (t2, e2) :: rest =>
    (!(isFrameSend e1) || decide (t1 + frameSleepMs ≤ t2)) &&
      spacedAfterFrames ((t2, e2) :: rest)
  | _ => true

/-- Bound linking the send log to the pacer clock: the last send attempt
is not in the future, and if it was a queue frame the post-frame sleep has
completed. -/
def sendsBound (l : List (Nat × SendEvent)) (n : Nat) : Prop :=
  ∀ te ∈ l.getLast?, te.1 ≤ n ∧ (isFrameSend te.2 = true → te.1 + frameSleepMs ≤ n)

lemma sendsBound_mono {l : List (Nat × SendEvent)} {n m : Nat}
    (h : sendsBound l n) (hnm : n ≤ m) : sendsBound l m := by
  intro te hte
  exact ⟨(h te hte).1.trans hnm, fun hf => ((h te hte).2 hf).trans hnm⟩

lemma sendsBound_append {l : List (Nat × SendEvent)} {y : Nat × SendEvent} {n : Nat}
    (hy1 : y.1 ≤ n) (hy2 : isFrameSend y.2 = true → y.1 + frameSleepMs ≤ n) :
    sendsBound (l ++ [y]) n := by
  intro te hte
  rw [List.getLast?_concat] at hte
  simp only [Option.mem_def, Option.some.injEq] at hte
  subst hte
  exact ⟨hy1, hy2⟩

lemma spacedAfterFrames_append {xs : List (Nat × SendEvent)} {y : Nat × SendEvent}
    (hx : spacedAfterFrames xs = true)
    (hlast : ∀ te ∈ xs.getLast?, isFrameSend te.2 = true → te.1 + frameSleepMs ≤ y.1) :
    spacedAfterFrames (xs ++ [y]) = true := by
  induction xs with
  | nil => rfl
  | cons x xs ih =>
    cases xs with
    | nil =>
      rcases x with ⟨t1, e1⟩
      rcases y with ⟨t2, e2⟩
      have hl := hlast ⟨t1, e1⟩ (by simp)
      simp only [List.cons_append, List.nil_append, spacedAfterFrames,
        Bool.and_eq_true, Bool.or_eq_true, Bool.not_eq_true', decide_eq_true_eq]
      constructor
      · cases he : isFrameSend e1 with
        | false => exact Or.inl rfl
        | true => exact Or.inr (hl he)
      · trivial
    | cons x2 rest =>
      rcases x with ⟨t1, e1⟩
      rcases x2 with ⟨t2, e2⟩
      simp only [spacedAfterFrames, Bool.and_eq_true] at hx
      have hlast2 : ∀ te ∈ ((t2, e2) :: rest).getLast?,
          isFrameSend te.2 = true → te.1 + frameSleepMs ≤ y.1 := by
        intro te hte
        apply hlast te
        simpa [List.getLast?_cons_cons] using hte
      have hrec := ih hx.2 hlast2
      simp only [List.cons_append, spacedAfterFrames, Bool.and_eq_true]
      exact ⟨hx.1, by simpa using hrec⟩

lemma absorbAux_head_gt (arr : List (Nat × QItem)) (now : Nat) :
    ∀ (pend : List QItem),
      (absorbAux arr now pend).2 = [] ∨
      ∃ t it rest, (absorbAux arr now pend).2 = (t, it) :: rest ∧ now < t := by
  induction arr with
  | nil => intro pend; exact Or.inl rfl
  | cons a rest ih =>
    intro pend
    rcases a with ⟨t, it⟩
    by_cases ht : t ≤ now
    · simpa [absorbAux, ht] using ih (pend ++ [it])
    · exact Or.inr ⟨t, it, rest, by simp [absorbAux, ht], Nat.lt_of_not_le ht⟩

/-- The pacer's spacing invariant. -/
def pacerInv (s : PacerState) : Prop :=
  spacedAfterFrames s.sends = true ∧ sendsBound s.sends s.now

lemma pacerHandle_inv {f : Bool} {s : PacerState} {t : Nat} {it : QItem}
    (hsp : spacedAfterFrames s.sends = true) (hb : sendsBound s.sends t) :
    pacerInv (pacerHandle f s t it) := by
  cases it with
  | qframe payload =>
    cases hsid : s.streamSid with
    | true =>
      have hs : (pacerHandle f s t (QItem.qframe payload)).sends
          = s.sends ++ [(t, SendEvent.sframe payload)] := by
        simp [pacerHandle, hsid]
      have hn : (pacerHandle f s t (QItem.qframe payload)).now = t + frameSleepMs := by
        simp [pacerHandle]
      refine ⟨?_, ?_⟩
      · rw [hs]
        exact spacedAfterFrames_append hsp (fun te hte hf => (hb te hte).2 hf)
      · rw [hs, hn]
        exact sendsBound_append (Nat.le_add_right t frameSleepMs) (fun _ => le_refl _)
    | false =>
      have hs : (pacerHandle f s t (QItem.qframe payload)).sends = s.sends := by
        simp [pacerHandle, hsid]
      have hn : (pacerHandle f s t (QItem.qframe payload)).now = t + frameSleepMs := by
        simp [pacerHandle]
      refine ⟨?_, ?_⟩
      · rw [hs]; exact hsp
      · rw [hs, hn]
        exact sendsBound_mono hb (Nat.le_add_right t frameSleepMs)
  | sentinel =>
    have hs : (pacerHandle f s t QItem.sentinel).sends = s.sends := by
      simp [pacerHandle]
    have hn : (pacerHandle f s t QItem.sentinel).now = t := by
      simp [pacerHandle]
    refine ⟨?_, ?_⟩
    · rw [hs]; exact hsp
    · rw [hs, hn]; exact hb

lemma pacerTimeout_inv {f : Bool} {s : PacerState} {arr : List (Nat × QItem)}
    (hsp : spacedAfterFrames s.sends = true) (hb : sendsBound s.sends s.now) :
    pacerInv (pacerTimeout f s arr) := by
  cases hsid : s.streamSid with
  | true =>
    have hs : (pacerTimeout f s arr).sends
        = s.sends ++ [(s.now + silenceIntervalMs, SendEvent.silence)] := by
      simp [pacerTimeout, hsid]
    have hn : (pacerTimeout f s arr).now = s.now + silenceIntervalMs := by
      simp [pacerTimeout]
    refine ⟨?_, ?_⟩
    · rw [hs]
      refine spacedAfterFrames_append hsp ?_
      intro te hte hf
      exact ((hb te hte).2 hf).trans (Nat.le_add_right _ _)
    · rw [hs, hn]
      refine sendsBound_append (le_refl _) ?_
      intro hfr
      simp [isFrameSend] at hfr
  | false =>
    have hs : (pacerTimeout f s arr).sends = s.sends := by
      simp [pacerTimeout, hsid]
    have hn : (pacerTimeout f s arr).now = s.now + silenceIntervalMs := by
      simp [pacerTimeout]
    refine ⟨?_, ?_⟩
    · rw [hs]; exact hsp
    · rw [hs, hn]
      exact sendsBound_mono hb (Nat.le_add_right _ _)

lemma absorbAux_cons_gt {s : PacerState} {t : Nat} {it : QItem}
    {restArr : List (Nat × QItem)} {pend : List QItem}
    (habs : absorbAux s.arrivals s.now s.pending = (pend, (t, it) :: restArr)) :
    s.now < t := by
  rcases absorbAux_head_gt s.arrivals s.now s.pending with h0 | ⟨t', it', rest', heq, hlt⟩
  · rw [habs] at h0; simp at h0
  · rw [habs] at heq
    simp only at heq
    injection heq with heq1 heq2
    injection heq1 with ha hb
    omega

lemma pacerStep_inv (f : Bool) (s : PacerState) (h : pacerInv s) :
    pacerInv (pacerStep f s) := by
  cases hstop : s.stopFlag with
  | true =>
    have heq : pacerStep f s = s := by simp [pacerStep, hstop]
    rw [heq]; exact h
  | false =>
    rcases habs : absorbAux s.arrivals s.now s.pending with ⟨pend, arr⟩
    cases pend with
    | cons it restPend =>
      have heq : pacerStep f s
          = pacerHandle f { s with pending := restPend, arrivals := arr } s.now it := by
        simp [pacerStep, hstop, habs]
      rw [heq]
      exact pacerHandle_inv h.1 h.2
    | nil =>
      cases arr with
      | nil =>
        have heq : pacerStep f s = pacerTimeout f s [] := by
          simp [pacerStep, hstop, habs]
        rw [heq]
        exact pacerTimeout_inv h.1 h.2
      | cons ta restArr =>
        rcases ta with ⟨t, it⟩
        have hgt : s.now < t := absorbAux_cons_gt habs
        by_cases hlt : t < s.now + silenceIntervalMs
        · have heq : pacerStep f s
              = pacerHandle f { s with pending := [], arrivals := restArr } t it := by
            simp [pacerStep, hstop, habs, hlt]
          rw [heq]
          exact pacerHandle_inv h.1 (sendsBound_mono h.2 (Nat.le_of_lt hgt))
        · have heq : pacerStep f s = pacerTimeout f s ((t, it) :: restArr) := by
            simp [pacerStep, hstop, habs, hlt]
          rw [heq]
          exact pacerTimeout_inv h.1 h.2

/-- C7 counterexample: with the queue empty and a frame enqueued exactly
as the wait deadline expires, the pacer sends the silence filler at 100 ms
and the queue frame at the same instant — two sends 0 ms apart, closer
than the 20 ms nominal frame duration. -/
theorem silence_then_frame_same_instant :
    (pacerRun [false, false]
        ⟨0, [], [(100, QItem.qframe [7])], false, [], 0, false, true⟩).sends
      = [(100, SendEvent.silence), (100, SendEvent.sframe [7])] ∧
    allSendsSpaced frameSleepMs
      (pacerRun [false, false]
        ⟨0, [], [(100, QItem.qframe [7])], false, [], 0, false, true⟩).sends = false := by
  decide

/-- C7 (amended): every send that follows a queue-frame send comes at
least the nominal 20 ms frame duration later (the pacer sleeps after each
queue frame), and each expiry of the wait timeout sends exactly one
silence filler frame and advances the clock by the idle interval; but a
queue frame may follow a silence filler with no minimum gap. -/
theorem pacer_spacing_and_silence :
    (∀ (fails : List Bool) (n0 : Nat) (pend0 : List QItem)
        (arr : List (Nat × QItem)) (sp st sid : Bool),
      spacedAfterFrames
        (pacerRun fails ⟨n0, pend0, arr, sp, [], 0, st, sid⟩).sends = true) ∧
    (∀ (f : Bool) (s : PacerState) (arr : List (Nat × QItem)),
      s.stopFlag = false →
      absorbAux s.arrivals s.now s.pending = ([], arr) →
      (match arr with
       | [] => True
       | (t, _) :: _ => s.now + silenceIntervalMs ≤ t) →
      (pacerStep f s).sends = s.sends ++
        (if s.streamSid then [(s.now + silenceIntervalMs, SendEvent.silence)] else []) ∧
      (pacerStep f s).now = s.now + silenceIntervalMs) := by
  constructor
  · intro fails n0 pend0 arr sp st sid
    have hinit : pacerInv ⟨n0, pend0, arr, sp, [], 0, st, sid⟩ := by
      constructor
      · rfl
      · intro te hte
        simp [List.getLast?] at hte
    have : ∀ (fl : List Bool) (s : PacerState), pacerInv s → pacerInv (pacerRun fl s) := by
      intro fl
      induction fl with
      | nil => intro s hs; exact hs
      | cons f rest ih =>
        intro s hs
        exact ih _ (pacerStep_inv f s hs)
    exact (this fails _ hinit).1
  · intro f s arr hstop habs harr
    cases arr with
    | nil =>
      have heq : pacerStep f s = pacerTimeout f s [] := by
        simp [pacerStep, hstop, habs]
      rw [heq]
      constructor <;> simp [pacerTimeout]
    | cons ta rest =>
      rcases ta with ⟨t, it⟩
      have hge : s.now + silenceIntervalMs ≤ t := harr
      have heq : pacerStep f s = pacerTimeout f s ((t, it) :: rest) := by
        simp [pacerStep, hstop, habs, Nat.not_lt.mpr hge]
      rw [heq]
      constructor <;> simp [pacerTimeout]

/-- C7 witness: a concrete run satisfies the frame-spacing check, and a
concrete empty-queue state times out into exactly one silence frame. -/
theorem pacer_spacing_and_silence_witness :
    spacedAfterFrames
      (pacerRun [false, false, false]
        ⟨0, [QItem.qframe [1], QItem.qframe [2]], [], false, [], 0, false, true⟩).sends
      = true ∧
    (pacerStep false ⟨0, [], [], false, [], 0, false, true⟩).sends
      = [(silenceIntervalMs, SendEvent.silence)] := by
  constructor
  · exact pacer_spacing_and_silence.1 [false, false, false] 0
      [QItem.qframe [1], QItem.qframe [2]] [] false false true
  · have h := (pacer_spacing_and_silence.2 false
      ⟨0, [], [], false, [], 0, false, true⟩ [] rfl (by decide) trivial).1
    simpa using h

/-- C6 counterexample: a failing outbound send is swallowed — the stop
flag stays clear and the pacer goes on sending (here, the next iteration
still emits the idle silence frame). -/
theorem send_failure_does_not_stop_pacer :
    (pacerStep true ⟨0, [QItem.qframe [1]], [], true, [], 0, false, true⟩).sendFailures
      = 1 ∧
    (pacerStep true ⟨0, [QItem.qframe [1]], [], true, [], 0, false, true⟩).stopFlag
      = false ∧
    (pacerStep false
        (pacerStep true ⟨0, [QItem.qframe [1]], [], true, [], 0, false, true⟩)).sends
      = [(0, SendEvent.sframe [1]), (120, SendEvent.silence)] := by
  decide

/-- C6 (amended): `_send_frame` catches any transport send failure and
only logs it — the pacer never sets the stop flag, and its whole behaviour
apart from the failure count is identical whether sends fail or not, so
the session ends only through the receiver's teardown path. -/
theorem send_failure_swallowed :
    (∀ (f : Bool) (s : PacerState), (pacerStep f s).stopFlag = s.stopFlag) ∧
    (∀ (s : PacerState),
      (pacerStep true s).now = (pacerStep false s).now ∧
      (pacerStep true s).pending = (pacerStep false s).pending ∧
      (pacerStep true s).arrivals = (pacerStep false s).arrivals ∧
      (pacerStep true s).isSpeaking = (pacerStep false s).isSpeaking ∧
      (pacerStep true s).sends = (pacerStep false s).sends) := by
  constructor
  · intro f s
    cases hstop : s.stopFlag with
    | true => simp [pacerStep, hstop]
    | false =>
      rcases habs : absorbAux s.arrivals s.now s.pending with ⟨pend, arr⟩
      cases pend with
      | cons it rest =>
        have heq : pacerStep f s
            = pacerHandle f { s with pending := rest, arrivals := arr } s.now it := by
          simp [pacerStep, hstop, habs]
        rw [heq, hstop]
        cases it <;> simp [pacerHandle]
      | nil =>
        cases arr with
        | nil =>
          have heq : pacerStep f s = pacerTimeout f s [] := by
            simp [pacerStep, hstop, habs]
          rw [heq]
          simp [pacerTimeout, hstop]
        | cons ta rest =>
          rcases ta with ⟨t, it⟩
          by_cases hlt : t < s.now + silenceIntervalMs
          · have heq : pacerStep f s
                = pacerHandle f { s with pending := [], arrivals := rest } t it := by
              simp [pacerStep, hstop, habs, hlt]
            rw [heq, hstop]
            cases it <;> simp [pacerHandle]
          · have heq : pacerStep f s = pacerTimeout f s ((t, it) :: rest) := by
              simp [pacerStep, hstop, habs, hlt]
            rw [heq]
            simp [pacerTimeout, hstop]
  · intro s
    cases hstop : s.stopFlag with
    | true => simp [pacerStep, hstop]
    | false =>
      rcases habs : absorbAux s.arrivals s.now s.pending with ⟨pend, arr⟩
      cases pend with
      | cons it rest =>
        have heqT : pacerStep true s
            = pacerHandle true { s with pending := rest, arrivals := arr } s.now it := by
          simp [pacerStep, hstop, habs]
        have heqF : pacerStep false s
            = pacerHandle false { s with pending := rest, arrivals := arr } s.now it := by
          simp [pacerStep, hstop, habs]
        rw [heqT, heqF]
        cases it <;> simp [pacerHandle]
      | nil =>
        cases arr with
        | nil =>
          have heqT : pacerStep true s = pacerTimeout true s [] := by
            simp [pacerStep, hstop, habs]
          have heqF : pacerStep false s = pacerTimeout false s [] := by
            simp [pacerStep, hstop, habs]
          rw [heqT, heqF]
          simp [pacerTimeout]
        | cons ta rest =>
          rcases ta with ⟨t, it⟩
          by_cases hlt : t < s.now + silenceIntervalMs
          · have heqT : pacerStep true s
                = pacerHandle true { s with pending := [], arrivals := rest } t it := by
              simp [pacerStep, hstop, habs, hlt]
            have heqF : pacerStep false s
                = pacerHandle false { s with pending := [], arrivals := rest } t it := by
              simp [pacerStep, hstop, habs, hlt]
            rw [heqT, heqF]
            cases it <;> simp [pacerHandle]
          · have heqT : pacerStep true s = pacerTimeout true s ((t, it) :: rest) := by
              simp [pacerStep, hstop, habs, hlt]
            have heqF : pacerStep false s = pacerTimeout false s ((t, it) :: rest) := by
              simp [pacerStep, hstop, habs, hlt]
            rw [heqT, heqF]
            simp [pacerTimeout]

/-! ## Session termination reason (`_twilio_receiver`, `_hangup`)

Two tasks write `_call_end_reason`: the receiver loop (on a Twilio `stop`
event, on the WebSocket ending without one, on a `WebSocketDisconnect`,
or on any other receiver exception) and the bot-initiated `_hangup`
(which assigns `bot_hangup`, then awaits the REST hangup — a suspension
point — and only then sets the stop flag).  The model interleaves the two
tasks at their suspension points. -/

/-- The values `_call_end_reason` can take (the source's strings). -/
inductive EndReason where
  | twilioStopEvent
  | websocketClosed
  | websocketDisconnect (code : Nat)
  | receiverError
  | botHangup
deriving DecidableEq

/-- Messages the receiver can read from the transport. -/
inductive RxEvent where
  | media
  | startEvent
  | stopEvent
deriving DecidableEq

/-- How the inbound message stream ends once the message list is
exhausted: a plain close (the `async for` ends, taking the `for`-`else`
branch), a `WebSocketDisconnect` with a close code, or another receiver
exception. -/
inductive StreamEnd where
  | closed
  | disconnected (code : Nat)
  | errored
deriving DecidableEq

/-- Joint state of the receiver task and the `_hangup` call:
`_call_end_reason`, `_stop`, `_bot_initiated_hangup`, the remaining
transport input, how the stream will end, whether the receiver loop has
exited, and the hangup task's program counter (0 = not yet run its first
statements, 1 = awaiting the REST hangup, 2 = about to set `_stop`,
3 = finished). -/
structure CtlState where
  reason : Option EndReason
  stopFlag : Bool
  botFlag : Bool
  msgs : List RxEvent
  ending : StreamEnd
  recvDone : Bool
  hangupPC : Nat
deriving DecidableEq

/-- One scheduling slice of `_twilio_receiver`: receive the next message
(breaking first if `_stop` is already set, with `finally` re-setting it),
process it — `media`/`start` touch no termination state, `stop` records
`twilio_stop_event` and breaks — or, when the stream is exhausted, take
the `for`-`else` / `except` / `finally` path for the stream's ending. -/
def recvStep (s : CtlState) : CtlState :=
  if s.recvDone then s
  else
    match s.msgs with
    | m :: rest =>
      if s.stopFlag then
        { s with msgs := rest, recvDone := true, stopFlag := true }
      else
        match m with
        | RxEvent.media => { s with msgs := rest }
        | RxEvent.startEvent => { s with msgs := rest }
        | RxEvent.stopEvent =>
          { s with
              msgs := rest, reason := some EndReason.twilioStopEvent,
              recvDone := true, stopFlag := true }
    | [] =>
      match s.ending with
      | StreamEnd.closed =>
        { s with
            reason := some EndReason.websocketClosed,
            recvDone := true, stopFlag := true }
      | StreamEnd.disconnected code =>
        { s with
            reason := some (EndReason.websocketDisconnect code),
            recvDone := true, stopFlag := true }
      | StreamEnd.errored =>
        { s with
            reason := some EndReason.receiverError,
            recvDone := true, stopFlag := true }

/-- One scheduling slice of `_hangup`: first slice sets
`_bot_initiated_hangup` and `_call_end_reason = "bot_hangup"` (no await
between them), second slice is the awaited best-effort REST hangup,
third sets `_stop`. -/
def hangupStep (s : CtlState) : CtlState :=
  match s.hangupPC with
  | 0 => { s with botFlag := true, reason := some EndReason.botHangup, hangupPC := 1 }
  | 1 => { s with hangupPC := 2 }
  | 2 => { s with stopFlag := true, hangupPC := 3 }
  | _ => s

/-- Run one slice of the chosen task (`true` = receiver, `false` = hangup). -/
def ctlStep (s : CtlState) (pick : Bool) : CtlState :=
  if pick then recvStep s else hangupStep s

/-- Run a schedule of slices. -/
def ctlRun (s : CtlState) (picks : List Bool) : CtlState :=
  picks.foldl ctlStep s

/-- C8 counterexample: `_hangup` records `bot_hangup`, then suspends on the
REST call; before it sets `_stop`, the receiver processes a Twilio `stop`
event (sent because the call just ended) and overwrites the reason with
`twilio_stop_event` — the termination reason, once set, IS overwritten. -/
theorem end_reason_overwritten_by_race :
    (ctlRun ⟨none, false, false, [RxEvent.stopEvent], StreamEnd.closed, false, 0⟩
        [false]).reason = some EndReason.botHangup ∧
    (ctlRun ⟨none, false, false, [RxEvent.stopEvent], StreamEnd.closed, false, 0⟩
        [false, true]).reason = some EndReason.twilioStopEvent ∧
    some EndReason.botHangup ≠ some EndReason.twilioStopEvent := by
  decide

/-- C8 (amended): each writer on its own assigns the termination reason at
most once — a receiver write is the receiver's final act (it exits its
loop and sets the stop flag in the same slice, and an exited receiver
never writes again), and the hangup task writes only in its first slice —
so within a single task the reason is never overwritten; only the
interleaving of a bot-initiated hangup with a remote stop/close/error can
overwrite it. -/
theorem end_reason_single_writer :
    (∀ (s : CtlState), s.recvDone = true → recvStep s = s) ∧
    (∀ (s : CtlState), (recvStep s).reason ≠ s.reason →
      (recvStep s).recvDone = true ∧ (recvStep s).stopFlag = true) ∧
    (∀ (s : CtlState) (n : Nat), s.recvDone = true → recvStep^[n] s = s) ∧
    (∀ (s : CtlState), (hangupStep s).reason ≠ s.reason →
      s.hangupPC = 0 ∧ (hangupStep s).hangupPC = 1 ∧
      (hangupStep s).reason = some EndReason.botHangup) ∧
    (∀ (s : CtlState), 1 ≤ s.hangupPC → (hangupStep s).reason = s.reason) := by
  refine ⟨?_, ?_, ?_, ?_, ?_⟩
  · intro s hdone
    simp [recvStep, hdone]
  · intro s hch
    by_cases hdone : s.recvDone = true
    · simp [recvStep, hdone] at hch
    · have hdone' : s.recvDone = false := by simpa using hdone
      cases hm : s.msgs with
      | cons m rest =>
        cases hstop : s.stopFlag with
        | true => simp [recvStep, hdone', hm, hstop] at hch
        | false =>
          cases m <;> simp_all [recvStep, hdone', hm, hstop]
      | nil =>
        cases hend : s.ending <;> simp [recvStep, hdone', hm, hend]
  · intro s n hdone
    induction n with
    | zero => rfl
    | succ k ih =>
      rw [Function.iterate_succ_apply, show recvStep s = s from by simp [recvStep, hdone]]
      exact ih
  · intro s hch
    cases hpc : s.hangupPC with
    | zero => simp [hangupStep, hpc]
    | succ k =>
      cases k with
      | zero => simp [hangupStep, hpc] at hch
      | succ j =>
        cases j with
        | zero => simp [hangupStep, hpc] at hch
        | succ i => simp [hangupStep, hpc] at hch
  · intro s hpc
    have : s.hangupPC = 1 ∨ s.hangupPC = 2 ∨ 3 ≤ s.hangupPC := by omega
    rcases this with h | h | h
    · simp [hangupStep, h]
    · simp [hangupStep, h]
    · have : ∃ k, s.hangupPC = k + 3 := ⟨s.hangupPC - 3, by omega⟩
      rcases this with ⟨k, hk⟩
      simp [hangupStep, hk]

/-- C8 witness: concrete instances — an exited receiver is inert for any
number of slices; a receiver write on a stop event exits and stops in the
same slice; the hangup writes only in its first slice. -/
theorem end_reason_single_writer_witness :
    recvStep^[5] ⟨some EndReason.twilioStopEvent, true, false, [], StreamEnd.closed, true, 0⟩
      = ⟨some EndReason.twilioStopEvent, true, false, [], StreamEnd.closed, true, 0⟩ ∧
    ((recvStep ⟨none, false, false, [RxEvent.stopEvent], StreamEnd.closed, false, 0⟩).recvDone
      = true ∧
     (recvStep ⟨none, false, false, [RxEvent.stopEvent], StreamEnd.closed, false, 0⟩).stopFlag
      = true) ∧
    (hangupStep ⟨some EndReason.botHangup, false, true, [], StreamEnd.closed, false, 1⟩).reason
      = some EndReason.botHangup := by
  refine ⟨?_, ?_, ?_⟩
  · exact end_reason_single_writer.2.2.1 _ 5 rfl
  · exact end_reason_single_writer.2.1
      ⟨none, false, false, [RxEvent.stopEvent], StreamEnd.closed, false, 0⟩ (by decide)
  · exact end_reason_single_writer.2.2.2.2
      ⟨some EndReason.botHangup, false, true, [], StreamEnd.closed, false, 1⟩ (by decide)

/-! ## Playback-queue ownership and barge-in (`_generate_and_speak`,
`_do_generate_and_speak`, `_clear_audio`, `_audio_sender`)

An interleaved model of one session's generation machinery.  A Generation
Task (`_delayed_respond` → `_generate_and_speak` under `_response_lock`)
runs from suspension point to suspension point; between two suspension
points the event loop may run the frame sender or the STT callback (which
cancels the task — the `CancelledError` is raised at the task's next
suspension point, and the `except asyncio.CancelledError` handler in
`_generate_and_speak` runs `_clear_audio` before the task ends).  Tasks
here stream a non-empty reply without the end marker; the text processing
and `[END_CALL]` path are the sequential model above.  Queue entries are
tagged with the producing task's id — the tag is bookkeeping to state
ownership, not data the code carries. -/

/-- Program counter of the in-flight generation task, one constructor per
region between suspension points: about to run `_clear_audio`; awaiting
`get_patient_response` (the chunks its TTS stream will later yield travel
with the pc); streaming (frames of the current chunk still to enqueue,
then the remaining chunks); about to put the end-of-utterance sentinel. -/
inductive GenPC where
  | pcClear (chunks : List (List Nat))
  | pcLLM (chunks : List (List Nat))
  | pcStream (pendingFrames : List (List Nat)) (remChunks : List (List Nat))
  | pcSentinel
deriving DecidableEq

/-- The generation slot: empty, or one task with its id, a pending
cancellation request, and its program counter (`_response_lock` admits at
most one task at a time). -/
inductive GenTask where
  | idle
  | running (tid : Nat) (cancelRequested : Bool) (pc : GenPC)
deriving DecidableEq

/-- Shared session state of the interleaved model. -/
structure GenSys where
  queue : List (Nat × Option (List Nat))
  sentFrames : List (Nat × List Nat)
  clearsSent : Nat
  bargeIn : Bool
  isSpeaking : Bool
  gen : GenTask
  nextTaskId : Nat
deriving DecidableEq

/-- Effect of `_clear_audio`: set `_barge_in`, drain the queue, emit a
`clear` instruction to the transport, clear `_is_speaking`. -/
def clearAudioFx (s : GenSys) : GenSys :=
  { s with
      bargeIn := true, queue := [], clearsSent := s.clearsSent + 1,
      isSpeaking := false }

/-- Run the generation task to its next suspension point.  A pending
cancellation fires first (`CancelledError` at the suspension point; the
handler runs `_clear_audio` and the task ends).  Otherwise: `pcClear`
performs the flush and clear emission, then awaits the LLM; the LLM
returning sets `_is_speaking`, clears `_barge_in` and starts streaming;
streaming checks `_barge_in` before each chunk (breaking to the sentinel),
repacks the chunk into frames, and enqueues one frame per suspension;
after the last chunk the sentinel is enqueued and the task finishes. -/
def genStepFx (s : GenSys) : GenSys :=
  match s.gen with
  | GenTask.idle => s
  | GenTask.running tid cancelReq pc =>
    if cancelReq then { clearAudioFx s with gen := GenTask.idle }
    else
      match pc with
      | GenPC.pcClear chunks =>
        { clearAudioFx s with gen := GenTask.running tid false (GenPC.pcLLM chunks) }
      | GenPC.pcLLM chunks =>
        { s with
            isSpeaking := true, bargeIn := false,
            gen := GenTask.running tid false (GenPC.pcStream [] chunks) }
      | GenPC.pcStream [] [] =>
        { s with gen := GenTask.running tid false GenPC.pcSentinel }
      | GenPC.pcStream [] (c :: rest) =>
        if s.bargeIn then { s with gen := GenTask.running tid false GenPC.pcSentinel }
        else
          { s with gen := GenTask.running tid false (GenPC.pcStream (splitFrames c) rest) }
      | GenPC.pcStream (f :: fs) rem =>
        { s with
            queue := s.queue ++ [(tid, some f)],
            gen := GenTask.running tid false (GenPC.pcStream fs rem) }
      | GenPC.pcSentinel =>
        { s with queue := s.queue ++ [(tid, none)], gen := GenTask.idle }

/-- Scheduler actions: a dispatched turn starts a task (when the lock is
free), the task advances, a non-empty `PartialFinal` cancels the in-flight
task (`self._speak_task.cancel()`), or the sender consumes one queue item
(sending a frame on, or clearing `_is_speaking` on the sentinel). -/
inductive GenAction where
  | start (chunks : List (List Nat))
  | genStep
  | cancel
  | senderStep
deriving DecidableEq

/-- One scheduling step. -/
def genSysStep (s : GenSys) : GenAction → GenSys
  | GenAction.start chunks =>
    match s.gen with
    | GenTask.idle =>
      { s with
          gen := GenTask.running s.nextTaskId false (GenPC.pcClear chunks),
          nextTaskId := s.nextTaskId + 1 }
    | GenTask.running _ _ _ => s
  | GenAction.genStep => genStepFx s
  | GenAction.cancel =>
    match s.gen with
    | GenTask.running tid false pc => { s with gen := GenTask.running tid true pc }
    | _ => s
  | GenAction.senderStep =>
    match s.queue with
    | [] => s
    | (tid, some f) :: rest =>
      { s with queue := rest, sentFrames := s.sentFrames ++ [(tid, f)] }
    | (_, none) :: rest => { s with queue := rest, isSpeaking := false }

/-- The empty initial session. -/
def genInit : GenSys := ⟨[], [], 0, false, false, GenTask.idle, 0⟩

/-- Run a schedule from the initial session. -/
def genSysRun (acts : List GenAction) : GenSys :=
  acts.foldl genSysStep genInit

/-- The Playback Queue holds at most one task's entries. -/
def sameOwner (s : GenSys) : Prop :=
  ∀ e1 ∈ s.queue, ∀ e2 ∈ s.queue, e1.1 = e2.1

/-- Ownership demanded of the queue by the state of the generation slot:
empty while the task awaits the LLM (it was just flushed), and from
streaming on every queued entry belongs to the running task. -/
def ownerSpec : GenTask → List (Nat × Option (List Nat)) → Prop
  | GenTask.running _ _ (GenPC.pcLLM _), q => q = []
  | GenTask.running tid _ (GenPC.pcStream _ _), q => ∀ e ∈ q, e.1 = tid
  | GenTask.running tid _ GenPC.pcSentinel, q => ∀ e ∈ q, e.1 = tid
  | _, _ => True

/-- Strengthened invariant component. -/
def ownerOK (s : GenSys) : Prop :=
  ownerSpec s.gen s.queue

lemma genSysStep_owner (s : GenSys) (a : GenAction)
    (hsame : sameOwner s) (hok : ownerOK s) :
    sameOwner (genSysStep s a) ∧ ownerOK (genSysStep s a) := by
  cases a with
  | start chunks =>
    cases hg : s.gen with
    | idle =>
      have hq : (genSysStep s (GenAction.start chunks)).queue = s.queue := by
        simp [genSysStep, hg]
      have hgen : (genSysStep s (GenAction.start chunks)).gen
          = GenTask.running s.nextTaskId false (GenPC.pcClear chunks) := by
        simp [genSysStep, hg]
      constructor
      · simp only [sameOwner, hq]
        intro e1 h1 e2 h2
        exact hsame e1 h1 e2 h2
      · simp [ownerOK, hgen, ownerSpec]
    | running tid c pc =>
      have heq : genSysStep s (GenAction.start chunks) = s := by
        simp [genSysStep, hg]
      rw [heq]
      exact ⟨hsame, hok⟩
  | cancel =>
    cases hg : s.gen with
    | idle =>
      have heq : genSysStep s GenAction.cancel = s := by
        simp [genSysStep, hg]
      rw [heq]
      exact ⟨hsame, hok⟩
    | running tid c pc =>
      cases c with
      | true =>
        have heq : genSysStep s GenAction.cancel = s := by
          simp [genSysStep, hg]
        rw [heq]
        exact ⟨hsame, hok⟩
      | false =>
        have hq : (genSysStep s GenAction.cancel).queue = s.queue := by
          simp [genSysStep, hg]
        have hgen : (genSysStep s GenAction.cancel).gen
            = GenTask.running tid true pc := by
          simp [genSysStep, hg]
        have hok' : ownerSpec (GenTask.running tid false pc) s.queue := by
          simpa [ownerOK, hg] using hok
        constructor
        · simp only [sameOwner, hq]
          intro e1 h1 e2 h2
          exact hsame e1 h1 e2 h2
        · simp only [ownerOK, hgen, hq]
          cases pc with
          | pcClear ch => simp [ownerSpec]
          | pcLLM ch => simpa [ownerSpec] using hok'
          | pcStream pf rc => simpa [ownerSpec] using hok'
          | pcSentinel => simpa [ownerSpec] using hok'
  | senderStep =>
    cases hq : s.queue with
    | nil =>
      have heq : genSysStep s GenAction.senderStep = s := by
        simp [genSysStep, hq]
      rw [heq]
      exact ⟨hsame, hok⟩
    | cons e rest =>
      rcases e with ⟨tid, ofr⟩
      have hq' : (genSysStep s GenAction.senderStep).queue = rest := by
        cases ofr <;> simp [genSysStep, hq]
      have hgen : (genSysStep s GenAction.senderStep).gen = s.gen := by
        cases ofr <;> simp [genSysStep, hq]
      have hmem : ∀ x ∈ rest, x ∈ s.queue := by
        intro x hx
        rw [hq]
        exact List.mem_cons_of_mem _ hx
      constructor
      · simp only [sameOwner, hq']
        intro e1 h1 e2 h2
        exact hsame e1 (hmem e1 h1) e2 (hmem e2 h2)
      · simp only [ownerOK, hgen, hq']
        have hok' : ownerSpec s.gen s.queue := hok
        cases hgs : s.gen with
        | idle => simp [ownerSpec]
        | running tid2 c2 pc2 =>
          rw [hgs] at hok'
          cases pc2 with
          | pcClear ch => simp [ownerSpec]
          | pcLLM ch =>
            rw [hq] at hok'
            simp [ownerSpec] at hok'
          | pcStream pf rc =>
            simp only [ownerSpec] at hok' ⊢
            intro x hx
            exact hok' x (hmem x hx)
          | pcSentinel =>
            simp only [ownerSpec] at hok' ⊢
            intro x hx
            exact hok' x (hmem x hx)
  | genStep =>
    cases hg : s.gen with
    | idle =>
      have heq : genSysStep s GenAction.genStep = s := by
        simp [genSysStep, genStepFx, hg]
      rw [heq]
      exact ⟨hsame, hok⟩
    | running tid cr pc =>
      cases cr with
      | true =>
        have hq : (genSysStep s GenAction.genStep).queue = [] := by
          simp [genSysStep, genStepFx, hg, clearAudioFx]
        have hgen : (genSysStep s GenAction.genStep).gen = GenTask.idle := by
          simp [genSysStep, genStepFx, hg, clearAudioFx]
        constructor
        · simp only [sameOwner, hq]
          intro e1 h1
          simp at h1
        · simp [ownerOK, hgen, hq, ownerSpec]
      | false =>
        have hok' : ownerSpec (GenTask.running tid false pc) s.queue := by
          simpa [ownerOK, hg] using hok
        cases pc with
        | pcClear chunks =>
          have hq : (genSysStep s GenAction.genStep).queue = [] := by
            simp [genSysStep, genStepFx, hg, clearAudioFx]
          have hgen : (genSysStep s GenAction.genStep).gen
              = GenTask.running tid false (GenPC.pcLLM chunks) := by
            simp [genSysStep, genStepFx, hg, clearAudioFx]
          constructor
          · simp only [sameOwner, hq]
            intro e1 h1
            simp at h1
          · simp [ownerOK, hgen, hq, ownerSpec]
        | pcLLM chunks =>
          have hqs : s.queue = [] := by
            simpa [ownerSpec] using hok'
          have hq : (genSysStep s GenAction.genStep).queue = [] := by
            simp [genSysStep, genStepFx, hg, hqs]
          have hgen : (genSysStep s GenAction.genStep).gen
              = GenTask.running tid false (GenPC.pcStream [] chunks) := by
            simp [genSysStep, genStepFx, hg]
          constructor
          · simp only [sameOwner, hq]
            intro e1 h1
            simp at h1
          · simp [ownerOK, hgen, hq, ownerSpec]
        | pcStream pf rem =>
          have howned : ∀ e ∈ s.queue, e.1 = tid := by
            simpa [ownerSpec] using hok'
          cases pf with
          | cons f fs =>
            have hq : (genSysStep s GenAction.genStep).queue
                = s.queue ++ [(tid, some f)] := by
              simp [genSysStep, genStepFx, hg]
            have hgen : (genSysStep s GenAction.genStep).gen
                = GenTask.running tid false (GenPC.pcStream fs rem) := by
              simp [genSysStep, genStepFx, hg]
            constructor
            · simp only [sameOwner, hq]
              intro e1 h1 e2 h2
              rw [List.mem_append, List.mem_singleton] at h1 h2
              rcases h1 with h1 | h1 <;> rcases h2 with h2 | h2
              · exact hsame e1 h1 e2 h2
              · rw [howned e1 h1, h2]
              · rw [howned e2 h2, h1]
              · rw [h1, h2]
            · simp only [ownerOK, hgen, hq, ownerSpec]
              intro x hx
              rw [List.mem_append, List.mem_singleton] at hx
              rcases hx with hx | hx
              · exact howned x hx
              · rw [hx]
          | nil =>
            cases rem with
            | nil =>
              have hq : (genSysStep s GenAction.genStep).queue = s.queue := by
                simp [genSysStep, genStepFx, hg]
              have hgen : (genSysStep s GenAction.genStep).gen
                  = GenTask.running tid false GenPC.pcSentinel := by
                simp [genSysStep, genStepFx, hg]
              constructor
              · simp only [sameOwner, hq]
                intro e1 h1 e2 h2
                exact hsame e1 h1 e2 h2
              · simp only [ownerOK, hgen, hq, ownerSpec]
                exact howned
            | cons c rest =>
              cases hb : s.bargeIn with
              | true =>
                have hq : (genSysStep s GenAction.genStep).queue = s.queue := by
                  simp [genSysStep, genStepFx, hg, hb]
                have hgen : (genSysStep s GenAction.genStep).gen
                    = GenTask.running tid false GenPC.pcSentinel := by
                  simp [genSysStep, genStepFx, hg, hb]
                constructor
                · simp only [sameOwner, hq]
                  intro e1 h1 e2 h2
                  exact hsame e1 h1 e2 h2
                · simp only [ownerOK, hgen, hq, ownerSpec]
                  exact howned
              | false =>
                have hq : (genSysStep s GenAction.genStep).queue = s.queue := by
                  simp [genSysStep, genStepFx, hg, hb]
                have hgen : (genSysStep s GenAction.genStep).gen
                    = GenTask.running tid false (GenPC.pcStream (splitFrames c) rest) := by
                  simp [genSysStep, genStepFx, hg, hb]
                constructor
                · simp only [sameOwner, hq]
                  intro e1 h1 e2 h2
                  exact hsame e1 h1 e2 h2
                · simp only [ownerOK, hgen, hq, ownerSpec]
                  exact howned
        | pcSentinel =>
          have howned : ∀ e ∈ s.queue, e.1 = tid := by
            simpa [ownerSpec] using hok'
          have hq : (genSysStep s GenAction.genStep).queue
              = s.queue ++ [(tid, none)] := by
            simp [genSysStep, genStepFx, hg]
          have hgen : (genSysStep s GenAction.genStep).gen = GenTask.idle := by
            simp [genSysStep, genStepFx, hg]
          constructor
          · simp only [sameOwner, hq]
            intro e1 h1 e2 h2
            rw [List.mem_append, List.mem_singleton] at h1 h2
            rcases h1 with h1 | h1 <;> rcases h2 with h2 | h2
            · exact hsame e1 h1 e2 h2
            · rw [howned e1 h1, h2]
            · rw [howned e2 h2, h1]
            · rw [h1, h2]
          · simp [ownerOK, hgen, ownerSpec]

lemma genSysRun_owner (acts : List GenAction) :
    sameOwner (genSysRun acts) ∧ ownerOK (genSysRun acts) := by
  suffices h : ∀ (s : GenSys), sameOwner s → ownerOK s →
      sameOwner (acts.foldl genSysStep s) ∧ ownerOK (acts.foldl genSysStep s) by
    refine h genInit ?_ ?_
    · intro e1 h1
      simp [genInit] at h1
    · simp [genInit, ownerOK, ownerSpec]
  induction acts with
  | nil => intro s h1 h2; exact ⟨h1, h2⟩
  | cons a rest ih =>
    intro s h1 h2
    have hstep := genSysStep_owner s a h1 h2
    exact ih _ hstep.1 hstep.2

/-- C1 counterexample: task 0 is dispatched, flushes, obtains its reply,
enqueues a frame and suspends awaiting the next TTS chunk; the sender then
transmits that frame.  Only now does a `PartialFinal` cancel the task —
while it is still in flight, but after one of its frames has already been
sent.  The cancellation handler still leaves the queue empty.  So "that
task is cancelled before any of its frames are sent" fails on the code. -/
theorem frame_sent_before_cancellation :
    (genSysRun [GenAction.start [[1, 2, 3]], GenAction.genStep, GenAction.genStep,
        GenAction.genStep, GenAction.genStep, GenAction.senderStep]).gen
      = GenTask.running 0 false (GenPC.pcStream [] []) ∧
    (genSysRun [GenAction.start [[1, 2, 3]], GenAction.genStep, GenAction.genStep,
        GenAction.genStep, GenAction.genStep, GenAction.senderStep]).sentFrames
      = [(0, [1, 2, 3])] ∧
    (genSysRun [GenAction.start [[1, 2, 3]], GenAction.genStep, GenAction.genStep,
        GenAction.genStep, GenAction.genStep, GenAction.senderStep,
        GenAction.cancel, GenAction.genStep]).queue = [] ∧
    (genSysRun [GenAction.start [[1, 2, 3]], GenAction.genStep, GenAction.genStep,
        GenAction.genStep, GenAction.genStep, GenAction.senderStep,
        GenAction.cancel, GenAction.genStep]).gen = GenTask.idle := by
  decide

/-- C1 (amended): under every interleaving the Playback Queue never holds
entries of two different Generation Tasks; a task's first action is the
flush together with the outbound clear instruction, strictly before its
LLM await and hence before its first enqueue; a cancellation requested
while a task is in flight fires at the task's next suspension point,
enqueues nothing further, and its handler leaves the queue empty; and
cancelling when no task is running is a no-op, so repeated cancellations
never leave stale frames.  (Frames already handed to the sender before
the cancellation may however have been sent; the clear instruction asks
the transport to discard them.) -/
theorem playback_queue_single_owner :
    (∀ (acts : List GenAction), sameOwner (genSysRun acts)) ∧
    (∀ (s : GenSys) (tid : Nat) (chunks : List (List Nat)),
      s.gen = GenTask.running tid false (GenPC.pcClear chunks) →
      genStepFx s =
        { clearAudioFx s with gen := GenTask.running tid false (GenPC.pcLLM chunks) }) ∧
    (∀ (s : GenSys) (tid : Nat) (pc : GenPC),
      s.gen = GenTask.running tid true pc →
      genStepFx s = { clearAudioFx s with gen := GenTask.idle }) ∧
    (∀ (s : GenSys), s.gen = GenTask.idle →
      genSysStep s GenAction.cancel = s ∧ genStepFx s = s) := by
  refine ⟨?_, ?_, ?_, ?_⟩
  · intro acts
    exact (genSysRun_owner acts).1
  · intro s tid chunks hg
    simp [genStepFx, hg]
  · intro s tid pc hg
    simp [genStepFx, hg]
  · intro s hg
    constructor <;> simp [genSysStep, genStepFx, hg]

/-- C1 witness: concrete instances — two entries of a concrete reachable
queue share their owner; a task at its flush point steps to the flushed
LLM-await state; a cancel-requested task steps to the cleared idle state;
cancelling with no task running changes nothing. -/
theorem playback_queue_single_owner_witness :
    ((0, some [1, 2]) : Nat × Option (List Nat)).1 = ((0, none) : Nat × Option (List Nat)).1 ∧
    genStepFx (genSysRun [GenAction.start [[1, 2]]]) =
      { clearAudioFx (genSysRun [GenAction.start [[1, 2]]]) with
          gen := GenTask.running 0 false (GenPC.pcLLM [[1, 2]]) } ∧
    genStepFx (genSysRun [GenAction.start [[1, 2]], GenAction.genStep, GenAction.cancel]) =
      { clearAudioFx (genSysRun [GenAction.start [[1, 2]], GenAction.genStep, GenAction.cancel]) with
          gen := GenTask.idle } ∧
    genSysStep genInit GenAction.cancel = genInit := by
  refine ⟨?_, ?_, ?_, ?_⟩
  · exact playback_queue_single_owner.1
      [GenAction.start [[1, 2]], GenAction.genStep, GenAction.genStep, GenAction.genStep,
        GenAction.genStep, GenAction.genStep, GenAction.genStep]
      (0, some [1, 2]) (by decide) (0, none) (by decide)
  · exact playback_queue_single_owner.2.1 _ 0 [[1, 2]] (by decide)
  · exact playback_queue_single_owner.2.2.1 _ 0 (GenPC.pcLLM [[1, 2]]) (by decide)
  · exact (playback_queue_single_owner.2.2.2 genInit rfl).1

end VoiceBot
